import Mathlib

/-!
Shallow embedding of `webapp/flash_messages.py`: a per-session, TTL-bounded,
capacity-bounded flash-message store keyed by request id.

Modelling conventions:
* A stored message record is a Python dict that may lack keys, so every field
  of `MsgData` is an `Option`; `dict.get(key, default)` becomes `Option.getD`
  and a direct `dict[key]` access becomes a fallible match that produces a
  `KeyError` in the `Except` monad.
* The session mapping (a Python dict, insertion ordered, unique keys) is an
  association list `Messages := List (String × MsgData)`; assignment
  `d[k] = v` replaces the first occurrence in place or appends at the end,
  `del d[k]` removes the first occurrence, and iteration is list order.
* `flask.has_request_context()` is an explicit `hasCtx : Bool` argument; the
  clock `time.time()` is an explicit `now : Nat` argument; the UUID-based
  output of `_get_request_id` is an explicit `genId : String` argument.
* Functions that can raise (`get_flash_messages`, `get_all_flash_messages`
  index `msg_data["category"]` / `msg_data["message"]` directly) return
  `Except String (result × Messages)`; the state is only meaningful on `ok`,
  matching a Python run that completes without an exception.  Functions that
  only ever use `.get` with defaults are total.
-/

/-- One stored flash-message record: the four dict fields, each possibly
absent (Python dicts carry no schema). -/
structure MsgData where
  message : Option String
  category : Option String
  timestamp : Option Nat
  consumed : Option Bool
deriving Repr, DecidableEq

/-- The per-session mapping from request id to record, in insertion order. -/
abbrev Messages := List (String × MsgData)

/-- An element of a retrieval result: a bare message, or a
`(category, message)` pair when `with_categories` is true. -/
inductive FlashItem where
  | plain (message : String)
  | tagged (category message : String)
deriving Repr, DecidableEq

/-- `MAX_MESSAGE_AGE` from the module (seconds). -/
def MAX_MESSAGE_AGE : Nat := 60

/-- `MAX_MESSAGES_PER_SESSION` from the module. -/
def MAX_MESSAGES_PER_SESSION : Nat := 25

/-- First value stored under key `k` (`k in d` / `d[k]` read on a dict). -/
def lookup (k : String) : Messages → Option MsgData
  | [] => none
  | (k', v) :: rest => if k' = k then some v else lookup k rest

/-- Dict assignment `d[k] = v`: replace the first binding of `k` in place,
or append at the end when `k` is absent. -/
def insertMsg (k : String) (v : MsgData) : Messages → Messages
  | [] => [(k, v)]
  | (k', v') :: rest =>
      if k' = k then (k, v) :: rest else (k', v') :: insertMsg k v rest

/-- Dict deletion `del d[k]`: drop the first binding of `k`. -/
def eraseKey (k : String) : Messages → Messages
  | [] => []
  | (k', v') :: rest =>
      if k' = k then rest else (k', v') :: eraseKey k rest

/-- The age test of `_cleanup_old_messages`:
`current_time - msg_data.get("timestamp", 0) < MAX_MESSAGE_AGE`. -/
def fresh (now : Nat) (d : MsgData) : Bool :=
  now - d.timestamp.getD 0 < MAX_MESSAGE_AGE

/-- `_cleanup_old_messages(messages)`: keep exactly the records whose age is
strictly below `MAX_MESSAGE_AGE`, treating a missing timestamp as `0`. -/
def cleanup_old_messages (now : Nat) (messages : Messages) : Messages :=
  messages.filter (fun p => fresh now p.2)

/-- `min(messages.keys(), key=lambda k: messages[k].get("timestamp", 0))`:
fold keeping the first entry with the strictly smallest timestamp. -/
def oldestEntry (h : String × MsgData) (t : Messages) : String × MsgData :=
  t.foldl
    (fun best p =>
      if p.2.timestamp.getD 0 < best.2.timestamp.getD 0 then p else best)
    h

/-- `flash_message(message, category="message", request_id=None)`.
`genId` stands for the UUID-based id `_get_request_id()` would produce.
Returns the request id used and the updated session mapping. -/
def flash_message (hasCtx : Bool) (genId : String) (now : Nat)
    (message : String) (category : String) (request_id : Option String)
    (sess : Messages) : String × Messages :=
  if !hasCtx then ("", sess)
  else
    let rid := request_id.getD genId
    let messages := cleanup_old_messages now sess
    let messages :=
      if MAX_MESSAGES_PER_SESSION ≤ messages.length then
        match messages with
        | [] => messages
        | h :: t => eraseKey (oldestEntry h t).1 messages
      else messages
    let messages := insertMsg rid
      ⟨some message, some category, some now, some false⟩ messages
    (rid, messages)

/-- Is `category_filter` truthy in Python (`if category_filter and ...`)?
`None` and the empty list are falsy. -/
def filterActive : Option (List String) → Bool
  | some (_ :: _) => true
  | _ => false

/-- Build the returned element for a record: `msg_data["message"]`, or the
pair `(msg_data["category"], msg_data["message"])` with categories.  Direct
dict indexing, so a missing field is a `KeyError` (category is evaluated
first, as in the Python tuple). -/
def mkItem (withCategories : Bool) (d : MsgData) : Except String FlashItem :=
  if withCategories then
    match d.category with
    | none => .error "KeyError: category"
    | some c =>
      match d.message with
      | none => .error "KeyError: message"
      | some m => .ok (.tagged c m)
  else
    match d.message with
    | none => .error "KeyError: message"
    | some m => .ok (.plain m)

/-- `get_flash_messages(request_id, with_categories=False,
category_filter=None)`: look up one record by key, unconditionally mark it
consumed and persist, then filter and deliver. -/
def get_flash_messages (hasCtx : Bool) (request_id : String)
    (withCategories : Bool) (category_filter : Option (List String))
    (sess : Messages) : Except String (List FlashItem × Messages) :=
  if !hasCtx then .ok ([], sess)
  else
    match lookup request_id sess with
    | none => .ok ([], sess)
    | some d =>
      let d2 : MsgData := { d with consumed := some true }
      let sess2 := insertMsg request_id d2 sess
      if filterActive category_filter then
        match d2.category with
        | none => .error "KeyError: category"
        | some c =>
          if c ∈ category_filter.getD [] then
            (mkItem withCategories d2).map (fun it => ([it], sess2))
          else .ok ([], sess2)
      else
        (mkItem withCategories d2).map (fun it => ([it], sess2))

/-- Loop body of `get_all_flash_messages` over the cleaned mapping: skip
consumed records, skip (without consuming) records excluded by the filter,
otherwise emit the item and mark the record consumed. -/
def getAllAux (withCategories : Bool) (category_filter : Option (List String)) :
    Messages → Except String (List FlashItem × Messages)
  | [] => .ok ([], [])
  | (k, d) :: rest =>
    if d.consumed.getD false then
      (getAllAux withCategories category_filter rest).map
        (fun pr => (pr.1, (k, d) :: pr.2))
    else if filterActive category_filter then
      match d.category with
      | none => .error "KeyError: category"
      | some c =>
        if c ∈ category_filter.getD [] then
          match mkItem withCategories d with
          | .error e => .error e
          | .ok it =>
            (getAllAux withCategories category_filter rest).map
              (fun pr => (it :: pr.1, (k, { d with consumed := some true }) :: pr.2))
        else
          (getAllAux withCategories category_filter rest).map
            (fun pr => (pr.1, (k, d) :: pr.2))
    else
      match mkItem withCategories d with
      | .error e => .error e
      | .ok it =>
        (getAllAux withCategories category_filter rest).map
          (fun pr => (it :: pr.1, (k, { d with consumed := some true }) :: pr.2))

/-- `get_all_flash_messages(with_categories=False, category_filter=None)`:
lazy sweep, then drain every unconsumed record passing the filter, marking
each emitted record consumed, and persist the cleaned mapping. -/
def get_all_flash_messages (hasCtx : Bool) (now : Nat)
    (withCategories : Bool) (category_filter : Option (List String))
    (sess : Messages) : Except String (List FlashItem × Messages) :=
  if !hasCtx then .ok ([], sess)
  else getAllAux withCategories category_filter (cleanup_old_messages now sess)

/-- `clear_flash_messages(request_id=None)`. -/
def clear_flash_messages (hasCtx : Bool) (request_id : Option String)
    (sess : Messages) : Messages :=
  if !hasCtx then sess
  else
    match request_id with
    | none => []
    | some rid => if (lookup rid sess).isSome then eraseKey rid sess else sess

/-- `has_flash_messages(request_id=None)`: a pure read of the session (the
Python function never writes the session and performs no sweep). -/
def has_flash_messages (hasCtx : Bool) (request_id : Option String)
    (sess : Messages) : Bool :=
  if !hasCtx then false
  else
    match request_id with
    | some rid =>
      match lookup rid sess with
      | none => false
      | some d => !d.consumed.getD false
    | none => sess.any (fun p => !p.2.consumed.getD false)

/-- The in-place dict mutation `msg_data["consumed"] = True`. -/
def setTrue (d : MsgData) : MsgData := { d with consumed := some true }

/-- Does the `get_all_flash_messages` loop deliver (and thereby consume) a
record: unconsumed, and included by the (truthy) category filter. -/
def emits (category_filter : Option (List String)) (d : MsgData) : Bool :=
  !d.consumed.getD false &&
    (if filterActive category_filter then
      match d.category with
      | some c => decide (c ∈ category_filter.getD [])
      | none => false
     else true)

/-- The per-entry effect of one `get_all_flash_messages` pass on the cleaned
mapping: delivered records are marked consumed, all others kept verbatim. -/
def sweepMark (category_filter : Option (List String))
    (p : String × MsgData) : String × MsgData :=
  if emits category_filter p.2 then (p.1, setTrue p.2) else p

/-- Both text fields (`message`, `category`) present, so no direct dict
index on them can raise. -/
def hasTextFields (d : MsgData) : Bool :=
  d.message.isSome && d.category.isSome

/-- Fold `flash_message` over a list of `(request id, timestamp)` pairs,
flashing a fixed message and category at each listed time, inside a request
context. -/
def flashSeq (g msg cat : String) (pairs : List (String × Nat))
    (sess : Messages) : Messages :=
  pairs.foldl (fun s p => (flash_message true g p.2 msg cat (some p.1) s).2) sess

/-- Did the call complete without raising (an `ok` outcome)? -/
def excOk : Except String (List FlashItem × Messages) → Bool
  | .ok _ => true
  | .error _ => false

/-- The record `flash_message` stores for id `p.1` at time `p.2` when
flashing message `m` with category `c`. -/
def recOf (m c : String) (p : String × Nat) : String × MsgData :=
  (p.1, ⟨some m, some c, some p.2, some false⟩)

/-! ### Basic lemmas about the association-list dict operations -/

@[simp] theorem lookup_nil (k : String) : lookup k ([] : Messages) = none := rfl

@[simp] theorem lookup_cons (k : String) (p : String × MsgData) (rest : Messages) :
    lookup k (p :: rest) = if p.1 = k then some p.2 else lookup k rest := by
  cases p; rfl

@[simp] theorem insertMsg_nil (k : String) (v : MsgData) :
    insertMsg k v ([] : Messages) = [(k, v)] := rfl

@[simp] theorem insertMsg_cons (k : String) (v : MsgData)
    (p : String × MsgData) (rest : Messages) :
    insertMsg k v (p :: rest) =
      if p.1 = k then (k, v) :: rest else p :: insertMsg k v rest := by
  cases p; rfl

@[simp] theorem eraseKey_nil (k : String) : eraseKey k ([] : Messages) = [] := rfl

@[simp] theorem eraseKey_cons (k : String) (p : String × MsgData) (rest : Messages) :
    eraseKey k (p :: rest) =
      if p.1 = k then rest else p :: eraseKey k rest := by
  cases p; rfl

theorem lookup_insertMsg_self (k : String) (v : MsgData) (m : Messages) :
    lookup k (insertMsg k v m) = some v := by
  induction m with
  | nil => simp
  | cons p rest ih =>
    by_cases h : p.1 = k
    · simp [h]
    · simp [h, ih]

theorem lookup_insertMsg_ne (k' k : String) (v : MsgData) (m : Messages)
    (h : k' ≠ k) : lookup k' (insertMsg k v m) = lookup k' m := by
  have hk : k ≠ k' := Ne.symm h
  induction m with
  | nil => simp [hk]
  | cons p rest ih =>
    by_cases hp : p.1 = k
    · simp [hp, hk]
    · simp [hp, ih]

theorem mem_insertMsg (k : String) (v : MsgData) (m : Messages)
    (p : String × MsgData) (h : p ∈ insertMsg k v m) : p ∈ m ∨ p = (k, v) := by
  induction m with
  | nil => exact Or.inr (by simpa using h)
  | cons q rest ih =>
    by_cases hq : q.1 = k
    · rw [insertMsg_cons, if_pos hq] at h
      rcases List.mem_cons.1 h with h | h
      · exact Or.inr h
      · exact Or.inl (List.mem_cons_of_mem _ h)
    · rw [insertMsg_cons, if_neg hq] at h
      rcases List.mem_cons.1 h with h | h
      · exact Or.inl (h ▸ List.mem_cons_self _ _)
      · rcases ih h with h' | h'
        · exact Or.inl (List.mem_cons_of_mem _ h')
        · exact Or.inr h'

theorem insertMsg_of_not_mem (k : String) (v : MsgData) (m : Messages)
    (h : k ∉ m.map Prod.fst) : insertMsg k v m = m ++ [(k, v)] := by
  induction m with
  | nil => simp
  | cons q rest ih =>
    simp only [List.map_cons, List.mem_cons, not_or] at h
    have hq : ¬ q.1 = k := fun e => h.1 e.symm
    simp [hq, ih h.2]

theorem length_insertMsg_le (k : String) (v : MsgData) (m : Messages) :
    (insertMsg k v m).length ≤ m.length + 1 := by
  induction m with
  | nil => simp
  | cons q rest ih =>
    by_cases hq : q.1 = k
    · simp [hq]
    · simp only [insertMsg_cons, if_neg hq, List.length_cons]
      omega

theorem mem_eraseKey (k : String) (m : Messages) (p : String × MsgData)
    (h : p ∈ eraseKey k m) : p ∈ m := by
  induction m with
  | nil => simp at h
  | cons q rest ih =>
    by_cases hq : q.1 = k
    · rw [eraseKey_cons, if_pos hq] at h
      exact List.mem_cons_of_mem _ h
    · rw [eraseKey_cons, if_neg hq] at h
      rcases List.mem_cons.1 h with h | h
      · exact h ▸ List.mem_cons_self _ _
      · exact List.mem_cons_of_mem _ (ih h)

theorem length_eraseKey_add_one (k : String) (m : Messages)
    (h : k ∈ m.map Prod.fst) : (eraseKey k m).length + 1 = m.length := by
  induction m with
  | nil => simp at h
  | cons q rest ih =>
    by_cases hq : q.1 = k
    · simp [hq]
    · simp only [List.map_cons, List.mem_cons] at h
      rcases h with h | h
      · exact absurd h.symm hq
      · simp only [eraseKey_cons, if_neg hq, List.length_cons]
        rw [← ih h]

theorem lookup_eq_none_of_not_mem (k : String) (m : Messages)
    (h : k ∉ m.map Prod.fst) : lookup k m = none := by
  induction m with
  | nil => rfl
  | cons q rest ih =>
    simp only [List.map_cons, List.mem_cons, not_or] at h
    have hq : ¬ q.1 = k := fun e => h.1 e.symm
    simp [hq, ih h.2]

theorem mem_of_lookup (k : String) (d : MsgData) (m : Messages)
    (h : lookup k m = some d) : (k, d) ∈ m := by
  induction m with
  | nil => simp at h
  | cons q rest ih =>
    by_cases hq : q.1 = k
    · rw [lookup_cons, if_pos hq] at h
      injection h with h
      have : (k, d) = q := by
        cases q
        simp only at hq h
        simp [hq, h.symm]
      exact this ▸ List.mem_cons_self _ _
    · rw [lookup_cons, if_neg hq] at h
      exact List.mem_cons_of_mem _ (ih h)

theorem lookup_unique_of_nodup (k : String) (a b : MsgData) (m : Messages)
    (hnd : (m.map Prod.fst).Nodup) (ha : (k, a) ∈ m) (hb : (k, b) ∈ m) :
    a = b := by
  induction m with
  | nil => simp at ha
  | cons q rest ih =>
    simp only [List.map_cons, List.nodup_cons] at hnd
    rcases List.mem_cons.1 ha with ha' | ha' <;>
      rcases List.mem_cons.1 hb with hb' | hb'
    · simpa using congrArg Prod.snd (ha'.trans hb'.symm)
    · exact absurd
        (by simpa [← congrArg Prod.fst ha'] using List.mem_map_of_mem Prod.fst hb')
        hnd.1
    · exact absurd
        (by simpa [← congrArg Prod.fst hb'] using List.mem_map_of_mem Prod.fst ha')
        hnd.1
    · exact ih hnd.2 ha' hb'

theorem mem_cleanup (now : Nat) (m : Messages) (p : String × MsgData) :
    p ∈ cleanup_old_messages now m ↔ p ∈ m ∧ fresh now p.2 = true := by
  simp [cleanup_old_messages, List.mem_filter]

theorem lookup_cleanup_of_fresh (now : Nat) (k : String) (d : MsgData)
    (m : Messages) (hl : lookup k m = some d) (hf : fresh now d = true) :
    lookup k (cleanup_old_messages now m) = some d := by
  induction m with
  | nil => simp at hl
  | cons q rest ih =>
    by_cases hq : q.1 = k
    · rw [lookup_cons, if_pos hq] at hl
      injection hl with hl
      rw [cleanup_old_messages, List.filter_cons]
      rw [show fresh now q.2 = true from hl ▸ hf]
      simp [hq, hl]
    · rw [lookup_cons, if_neg hq] at hl
      rw [cleanup_old_messages, List.filter_cons]
      by_cases hfr : fresh now q.2 = true
      · simpa [hfr, hq] using ih hl
      · simpa [hfr] using ih hl

theorem length_cleanup_le (now : Nat) (m : Messages) :
    (cleanup_old_messages now m).length ≤ m.length :=
  List.length_filter_le _ m

theorem oldestEntry_mem (h : String × MsgData) (t : Messages) :
    oldestEntry h t ∈ h :: t := by
  suffices H : ∀ (l : Messages) (b : String × MsgData) (s : Messages),
      b ∈ s → (∀ q ∈ l, q ∈ s) →
      l.foldl (fun best p =>
        if p.2.timestamp.getD 0 < best.2.timestamp.getD 0 then p else best) b ∈ s by
    exact H t h (h :: t) (by simp) (fun q hq => List.mem_cons_of_mem _ hq)
  intro l
  induction l with
  | nil =>
    intro b s hb _
    simpa using hb
  | cons q rest ih =>
    intro b s hb hl
    simp only [List.foldl_cons]
    by_cases hc : q.2.timestamp.getD 0 < b.2.timestamp.getD 0
    · rw [if_pos hc]
      exact ih q s (hl q (by simp)) (fun r hr => hl r (List.mem_cons_of_mem _ hr))
    · rw [if_neg hc]
      exact ih b s hb (fun r hr => hl r (List.mem_cons_of_mem _ hr))

theorem oldestEntry_min (h : String × MsgData) (t : Messages) :
    ∀ q ∈ h :: t,
      (oldestEntry h t).2.timestamp.getD 0 ≤ q.2.timestamp.getD 0 := by
  suffices H : ∀ (l : Messages) (b : String × MsgData),
      (l.foldl (fun best p =>
        if p.2.timestamp.getD 0 < best.2.timestamp.getD 0 then p else best)
          b).2.timestamp.getD 0 ≤ b.2.timestamp.getD 0 ∧
      ∀ q ∈ l, (l.foldl (fun best p =>
        if p.2.timestamp.getD 0 < best.2.timestamp.getD 0 then p else best)
          b).2.timestamp.getD 0 ≤ q.2.timestamp.getD 0 by
    intro q hq
    rcases List.mem_cons.1 hq with hq' | hq'
    · exact hq' ▸ (H t h).1
    · exact (H t h).2 q hq'
  intro l
  induction l with
  | nil =>
    intro b
    simp
  | cons q rest ih =>
    intro b
    simp only [List.foldl_cons]
    by_cases hc : q.2.timestamp.getD 0 < b.2.timestamp.getD 0
    · rw [if_pos hc]
      refine ⟨Nat.le_of_lt (Nat.lt_of_le_of_lt (ih q).1 hc), ?_⟩
      intro r hr
      rcases List.mem_cons.1 hr with hr' | hr'
      · exact hr' ▸ (ih q).1
      · exact (ih q).2 r hr'
    · rw [if_neg hc]
      refine ⟨(ih b).1, ?_⟩
      intro r hr
      rcases List.mem_cons.1 hr with hr' | hr'
      · exact hr' ▸ Nat.le_trans (ih b).1 (Nat.le_of_not_lt hc)
      · exact (ih b).2 r hr'

theorem oldestEntry_eq_head (h : String × MsgData) (t : Messages)
    (hmin : ∀ q ∈ t, ¬(q.2.timestamp.getD 0 < h.2.timestamp.getD 0)) :
    oldestEntry h t = h := by
  unfold oldestEntry
  induction t with
  | nil => rfl
  | cons q rest ih =>
    simp only [List.foldl_cons, if_neg (hmin q (by simp))]
    exact ih (fun r hr => hmin r (List.mem_cons_of_mem _ hr))

theorem eraseKey_cons_self (h : String × MsgData) (t : Messages) :
    eraseKey h.1 (h :: t) = t := by
  simp

/-! ### Characterization of one `get_all_flash_messages` pass -/

theorem getAllAux_cons_consumed (wc : Bool) (f : Option (List String))
    (k : String) (d : MsgData) (rest : Messages)
    (hco : d.consumed.getD false = true) :
    getAllAux wc f ((k, d) :: rest) =
      (getAllAux wc f rest).map (fun pr => (pr.1, (k, d) :: pr.2)) := by
  simp [getAllAux, hco]

theorem getAllAux_cons_badcat (wc : Bool) (f : Option (List String))
    (k : String) (d : MsgData) (rest : Messages)
    (hco : d.consumed.getD false = false) (hf : filterActive f = true)
    (hc : d.category = none) :
    getAllAux wc f ((k, d) :: rest) = .error "KeyError: category" := by
  simp [getAllAux, hco, hf, hc]

theorem getAllAux_cons_skip (wc : Bool) (f : Option (List String))
    (k : String) (d : MsgData) (rest : Messages) (c : String)
    (hco : d.consumed.getD false = false) (hf : filterActive f = true)
    (hc : d.category = some c) (hin : c ∉ f.getD []) :
    getAllAux wc f ((k, d) :: rest) =
      (getAllAux wc f rest).map (fun pr => (pr.1, (k, d) :: pr.2)) := by
  simp [getAllAux, hco, hf, hc, hin]

theorem getAllAux_cons_emit_filtered (wc : Bool) (f : Option (List String))
    (k : String) (d : MsgData) (rest : Messages) (c : String) (it : FlashItem)
    (hco : d.consumed.getD false = false) (hf : filterActive f = true)
    (hc : d.category = some c) (hin : c ∈ f.getD [])
    (hit : mkItem wc d = .ok it) :
    getAllAux wc f ((k, d) :: rest) =
      (getAllAux wc f rest).map
        (fun pr => (it :: pr.1, (k, setTrue d) :: pr.2)) := by
  simp [getAllAux, hco, hf, hc, hin, hit, setTrue]

theorem getAllAux_cons_emit_nofilter (wc : Bool) (f : Option (List String))
    (k : String) (d : MsgData) (rest : Messages) (it : FlashItem)
    (hco : d.consumed.getD false = false) (hf : filterActive f = false)
    (hit : mkItem wc d = .ok it) :
    getAllAux wc f ((k, d) :: rest) =
      (getAllAux wc f rest).map
        (fun pr => (it :: pr.1, (k, setTrue d) :: pr.2)) := by
  simp [getAllAux, hco, hf, hit, setTrue]

theorem getAllAux_cons_bad_item_filtered (wc : Bool) (f : Option (List String))
    (k : String) (d : MsgData) (rest : Messages) (c : String) (e : String)
    (hco : d.consumed.getD false = false) (hf : filterActive f = true)
    (hc : d.category = some c) (hin : c ∈ f.getD [])
    (hit : mkItem wc d = .error e) :
    getAllAux wc f ((k, d) :: rest) = .error e := by
  simp [getAllAux, hco, hf, hc, hin, hit]

theorem getAllAux_cons_bad_item_nofilter (wc : Bool) (f : Option (List String))
    (k : String) (d : MsgData) (rest : Messages) (e : String)
    (hco : d.consumed.getD false = false) (hf : filterActive f = false)
    (hit : mkItem wc d = .error e) :
    getAllAux wc f ((k, d) :: rest) = .error e := by
  simp [getAllAux, hco, hf, hit]

theorem getAllAux_ok_spec (wc : Bool) (f : Option (List String)) (l : Messages)
    (r : List FlashItem) (m : Messages)
    (h : getAllAux wc f l = .ok (r, m)) :
    m = l.map (sweepMark f) ∧
    r = (l.filter (fun p => emits f p.2)).filterMap
        (fun p => (mkItem wc p.2).toOption) := by
  induction l generalizing r m with
  | nil =>
    simp only [getAllAux, Except.ok.injEq, Prod.mk.injEq] at h
    simp [← h.1, ← h.2]
  | cons p rest ih =>
    obtain ⟨k, d⟩ := p
    by_cases hco : d.consumed.getD false = true
    · rw [getAllAux_cons_consumed wc f k d rest hco] at h
      cases hrest : getAllAux wc f rest with
      | error e => rw [hrest] at h; simp [Except.map] at h
      | ok pr =>
        obtain ⟨r2, m2⟩ := pr
        rw [hrest] at h
        simp only [Except.map, Except.ok.injEq, Prod.mk.injEq] at h
        obtain ⟨hr, hm⟩ := h
        obtain ⟨ihm, ihr⟩ := ih r2 m2 hrest
        refine ⟨?_, ?_⟩
        · rw [← hm, List.map_cons, ← ihm]
          congr 1
          simp [sweepMark, emits, hco]
        · rw [← hr, ihr]
          simp [List.filter_cons, emits, hco]
    · rw [Bool.not_eq_true] at hco
      by_cases hf : filterActive f = true
      · cases hc : d.category with
        | none =>
          rw [getAllAux_cons_badcat wc f k d rest hco hf hc] at h
          simp at h
        | some c =>
          by_cases hin : c ∈ f.getD []
          · cases hit : mkItem wc d with
            | error e =>
              rw [getAllAux_cons_bad_item_filtered wc f k d rest c e
                hco hf hc hin hit] at h
              simp at h
            | ok it =>
              rw [getAllAux_cons_emit_filtered wc f k d rest c it
                hco hf hc hin hit] at h
              cases hrest : getAllAux wc f rest with
              | error e => rw [hrest] at h; simp [Except.map] at h
              | ok pr =>
                obtain ⟨r2, m2⟩ := pr
                rw [hrest] at h
                simp only [Except.map, Except.ok.injEq, Prod.mk.injEq] at h
                obtain ⟨hr, hm⟩ := h
                obtain ⟨ihm, ihr⟩ := ih r2 m2 hrest
                have hem : emits f d = true := by simp [emits, hco, hf, hc, hin]
                refine ⟨?_, ?_⟩
                · rw [← hm, List.map_cons, ← ihm]
                  congr 1
                  simp [sweepMark, hem]
                · rw [← hr, ihr]
                  simp [List.filter_cons, hem, hit, Except.toOption]
          · rw [getAllAux_cons_skip wc f k d rest c hco hf hc hin] at h
            cases hrest : getAllAux wc f rest with
            | error e => rw [hrest] at h; simp [Except.map] at h
            | ok pr =>
              obtain ⟨r2, m2⟩ := pr
              rw [hrest] at h
              simp only [Except.map, Except.ok.injEq, Prod.mk.injEq] at h
              obtain ⟨hr, hm⟩ := h
              obtain ⟨ihm, ihr⟩ := ih r2 m2 hrest
              have hem : emits f d = false := by simp [emits, hco, hf, hc, hin]
              refine ⟨?_, ?_⟩
              · rw [← hm, List.map_cons, ← ihm]
                congr 1
                simp [sweepMark, hem]
              · rw [← hr, ihr]
                simp [List.filter_cons, hem]
      · rw [Bool.not_eq_true] at hf
        cases hit : mkItem wc d with
        | error e =>
          rw [getAllAux_cons_bad_item_nofilter wc f k d rest e hco hf hit] at h
          simp at h
        | ok it =>
          rw [getAllAux_cons_emit_nofilter wc f k d rest it hco hf hit] at h
          cases hrest : getAllAux wc f rest with
          | error e => rw [hrest] at h; simp [Except.map] at h
          | ok pr =>
            obtain ⟨r2, m2⟩ := pr
            rw [hrest] at h
            simp only [Except.map, Except.ok.injEq, Prod.mk.injEq] at h
            obtain ⟨hr, hm⟩ := h
            obtain ⟨ihm, ihr⟩ := ih r2 m2 hrest
            have hem : emits f d = true := by simp [emits, hco, hf]
            refine ⟨?_, ?_⟩
            · rw [← hm, List.map_cons, ← ihm]
              congr 1
              simp [sweepMark, hem]
            · rw [← hr, ihr]
              simp [List.filter_cons, hem, hit, Except.toOption]

theorem mkItem_ok_of_fields (wc : Bool) (d : MsgData)
    (hwf : hasTextFields d = true) : ∃ it, mkItem wc d = .ok it := by
  simp only [hasTextFields, Bool.and_eq_true, Option.isSome_iff_exists] at hwf
  obtain ⟨⟨m, hm⟩, ⟨c, hc⟩⟩ := hwf
  cases wc <;> simp [mkItem, hm, hc]

theorem getAllAux_isOk (wc : Bool) (f : Option (List String)) (l : Messages)
    (hwf : ∀ p ∈ l, hasTextFields p.2 = true) :
    excOk (getAllAux wc f l) = true := by
  induction l with
  | nil => simp [getAllAux, excOk]
  | cons p rest ih =>
    obtain ⟨k, d⟩ := p
    have hwfd : hasTextFields d = true := hwf (k, d) (by simp)
    have ihr := ih (fun q hq => hwf q (List.mem_cons_of_mem _ hq))
    by_cases hco : d.consumed.getD false = true
    · rw [getAllAux_cons_consumed wc f k d rest hco]
      cases hrest : getAllAux wc f rest with
      | error e => rw [hrest] at ihr; simp [excOk] at ihr
      | ok pr => simp [Except.map, excOk]
    · rw [Bool.not_eq_true] at hco
      obtain ⟨c, hc⟩ : ∃ c, d.category = some c := by
        simp only [hasTextFields, Bool.and_eq_true, Option.isSome_iff_exists] at hwfd
        exact hwfd.2
      obtain ⟨it, hit⟩ := mkItem_ok_of_fields wc d hwfd
      by_cases hf : filterActive f = true
      · by_cases hin : c ∈ f.getD []
        · rw [getAllAux_cons_emit_filtered wc f k d rest c it hco hf hc hin hit]
          cases hrest : getAllAux wc f rest with
          | error e => rw [hrest] at ihr; simp [excOk] at ihr
          | ok pr => simp [Except.map, excOk]
        · rw [getAllAux_cons_skip wc f k d rest c hco hf hc hin]
          cases hrest : getAllAux wc f rest with
          | error e => rw [hrest] at ihr; simp [excOk] at ihr
          | ok pr => simp [Except.map, excOk]
      · rw [Bool.not_eq_true] at hf
        rw [getAllAux_cons_emit_nofilter wc f k d rest it hco hf hit]
        cases hrest : getAllAux wc f rest with
        | error e => rw [hrest] at ihr; simp [excOk] at ihr
        | ok pr => simp [Except.map, excOk]

theorem sweepMark_fst (f : Option (List String)) (p : String × MsgData) :
    (sweepMark f p).1 = p.1 := by
  by_cases h : emits f p.2 = true <;> simp [sweepMark, h]

theorem keys_map_sweepMark (f : Option (List String)) (l : Messages) :
    (l.map (sweepMark f)).map Prod.fst = l.map Prod.fst := by
  induction l with
  | nil => rfl
  | cons p rest ih => simp [sweepMark_fst, ih]

theorem lookup_map_sweepMark (f : Option (List String)) (k : String)
    (l : Messages) :
    lookup k (l.map (sweepMark f)) =
      (lookup k l).map (fun d => if emits f d then setTrue d else d) := by
  induction l with
  | nil => rfl
  | cons p rest ih =>
    rw [List.map_cons, lookup_cons, lookup_cons, sweepMark_fst]
    by_cases hk : p.1 = k
    · rw [if_pos hk, if_pos hk]
      by_cases he : emits f p.2 = true <;> simp [sweepMark, he]
    · rw [if_neg hk, if_neg hk, ih]

theorem flash_message_true_eq (g : String) (now : Nat) (msg cat : String)
    (ridO : Option String) (sess : Messages) :
    flash_message true g now msg cat ridO sess =
      (ridO.getD g,
        insertMsg (ridO.getD g) ⟨some msg, some cat, some now, some false⟩
          (if MAX_MESSAGES_PER_SESSION ≤ (cleanup_old_messages now sess).length
           then
            match cleanup_old_messages now sess with
            | [] => cleanup_old_messages now sess
            | h :: t => eraseKey (oldestEntry h t).1 (cleanup_old_messages now sess)
           else cleanup_old_messages now sess)) := rfl

/-! ### The claims -/

/-- Claim C1: inside a request context, `flash_message(message, category)`
followed immediately by `get_flash_messages` on the returned request id (no
filter) returns exactly `[message]`, or `[(category, message)]` when
`with_categories` is true. -/
theorem C1_flash_then_get (genId : String) (now : Nat) (msg cat : String)
    (request_id : Option String) (sess : Messages) (wc : Bool) :
    (get_flash_messages true
        (flash_message true genId now msg cat request_id sess).1 wc none
        (flash_message true genId now msg cat request_id sess).2).map
      Prod.fst =
      Except.ok [if wc then FlashItem.tagged cat msg else FlashItem.plain msg] := by
  rw [flash_message_true_eq]
  cases wc with
  | false =>
    simp [get_flash_messages, lookup_insertMsg_self, filterActive, mkItem,
      Except.map]
  | true =>
    simp [get_flash_messages, lookup_insertMsg_self, filterActive, mkItem,
      Except.map]

/-- Claim C3: when the key is present, `get_flash_messages` with a non-empty
category filter that excludes the record's category still marks the record
consumed and persists that mutation, returns `[]`, returns `[]` again on an
identical repeated call, and `has_flash_messages` on the id is false
afterward. -/
theorem C3_filtered_lookup_consumes (k : String) (d : MsgData) (c : String)
    (F : List String) (sess : Messages)
    (hl : lookup k sess = some d) (hc : d.category = some c)
    (hF : F ≠ []) (hnot : c ∉ F) :
    get_flash_messages true k false (some F) sess =
      .ok ([], insertMsg k { d with consumed := some true } sess) ∧
    (get_flash_messages true k false (some F)
        (insertMsg k { d with consumed := some true } sess)).map Prod.fst =
      Except.ok ([] : List FlashItem) ∧
    has_flash_messages true (some k)
        (insertMsg k { d with consumed := some true } sess) = false := by
  cases F with
  | nil => exact absurd rfl hF
  | cons c0 F' =>
    have hnot' : c ∉ c0 :: F' := hnot
    refine ⟨?_, ?_, ?_⟩
    · simp [get_flash_messages, hl, filterActive, hc, hnot']
    · simp [get_flash_messages, lookup_insertMsg_self, filterActive, hc, hnot',
        Except.map]
    · simp [has_flash_messages, lookup_insertMsg_self]

/-- Claim C6: with no active request/session context, all five operations
return their sentinel (`""`, `[]`, `[]`, no-op, `false`) without raising and
without touching the session state. -/
theorem C6_no_context (genId : String) (now : Nat) (msg cat rid : String)
    (ridO : Option String) (wc : Bool) (f : Option (List String))
    (sess : Messages) :
    flash_message false genId now msg cat ridO sess = ("", sess) ∧
    get_flash_messages false rid wc f sess = .ok ([], sess) ∧
    get_all_flash_messages false now wc f sess = .ok ([], sess) ∧
    clear_flash_messages false ridO sess = sess ∧
    has_flash_messages false ridO sess = false :=
  ⟨rfl, rfl, rfl, rfl, rfl⟩

/-- Claim C8: `has_flash_messages(request_id)` in a request context is true
iff the key is present with an unconsumed record; the session mapping is not
consulted for ages (no sweep), so the equivalence holds for records of any
timestamp, including expired ones. -/
theorem C8_has_iff (k : String) (sess : Messages) :
    has_flash_messages true (some k) sess = true ↔
      ∃ d, lookup k sess = some d ∧ d.consumed.getD false = false := by
  simp only [has_flash_messages]
  cases h : lookup k sess with
  | none => simp [h]
  | some d => simp [h]

/-- Claim C10: a record still physically present is returned by
`get_flash_messages` (and marked consumed) even when its age is at or past
`MAX_MESSAGE_AGE`: the per-id lookup performs no sweep and no age check, and
the rest of the mapping is untouched. -/
theorem C10_expired_still_retrievable (k : String) (d : MsgData) (m : String)
    (now : Nat) (sess : Messages)
    (hl : lookup k sess = some d) (hm : d.message = some m)
    (_hexp : MAX_MESSAGE_AGE ≤ now - d.timestamp.getD 0) :
    get_flash_messages true k false none sess =
      .ok ([FlashItem.plain m],
        insertMsg k { d with consumed := some true } sess) ∧
    has_flash_messages true (some k)
        (insertMsg k { d with consumed := some true } sess) = false := by
  refine ⟨?_, ?_⟩
  · simp [get_flash_messages, hl, filterActive, mkItem, hm, Except.map]
  · simp [has_flash_messages, lookup_insertMsg_self]

theorem C3_filtered_lookup_consumes_witness :
    lookup "p"
        [("p", (⟨some "Positive message", some "positive", some 0,
          some false⟩ : MsgData))] =
      some ⟨some "Positive message", some "positive", some 0, some false⟩ ∧
    ("positive" ∉ ["negative"]) ∧
    (get_flash_messages true "p" false (some ["negative"])
        [("p", ⟨some "Positive message", some "positive", some 0,
          some false⟩)] =
      .ok ([], [("p", ⟨some "Positive message", some "positive", some 0,
        some true⟩)]) ∧
     (get_flash_messages true "p" false (some ["negative"])
        [("p", ⟨some "Positive message", some "positive", some 0,
          some true⟩)]).map Prod.fst = Except.ok ([] : List FlashItem) ∧
     has_flash_messages true (some "p")
        [("p", ⟨some "Positive message", some "positive", some 0,
          some true⟩)] = false) :=
  ⟨rfl, by decide,
    C3_filtered_lookup_consumes "p"
      ⟨some "Positive message", some "positive", some 0, some false⟩
      "positive" ["negative"]
      [("p", ⟨some "Positive message", some "positive", some 0, some false⟩)]
      rfl rfl (by decide) (by decide)⟩

theorem C10_expired_still_retrievable_witness :
    MAX_MESSAGE_AGE ≤ 100 -
        ((⟨some "Old", some "message", some 10, some false⟩ : MsgData)).timestamp.getD 0 ∧
    (get_flash_messages true "k" false none
        [("k", ⟨some "Old", some "message", some 10, some false⟩)] =
      .ok ([FlashItem.plain "Old"],
        [("k", ⟨some "Old", some "message", some 10, some true⟩)]) ∧
     has_flash_messages true (some "k")
        [("k", ⟨some "Old", some "message", some 10, some true⟩)] = false) :=
  ⟨by decide,
    C10_expired_still_retrievable "k"
      ⟨some "Old", some "message", some 10, some false⟩ "Old" 100
      [("k", ⟨some "Old", some "message", some 10, some false⟩)]
      rfl rfl (by decide)⟩

theorem get_ok_state (rid : String) (wc : Bool) (f : Option (List String))
    (sess : Messages) (r : List FlashItem) (s2 : Messages)
    (h : get_flash_messages true rid wc f sess = .ok (r, s2)) :
    s2 = sess ∨ ∃ d, lookup rid sess = some d ∧
      s2 = insertMsg rid { d with consumed := some true } sess := by
  cases hl : lookup rid sess with
  | none =>
    simp only [get_flash_messages, hl, Bool.not_true, Bool.false_eq_true,
      if_false, Except.ok.injEq, Prod.mk.injEq] at h
    exact Or.inl h.2.symm
  | some d =>
    refine Or.inr ⟨d, rfl, ?_⟩
    simp only [get_flash_messages, hl, Bool.not_true, Bool.false_eq_true,
      if_false] at h
    by_cases hf : filterActive f = true
    · rw [if_pos hf] at h
      cases hcat : d.category with
      | none =>
        simp only [hcat] at h
        exact absurd h (by simp)
      | some c =>
        simp only [hcat] at h
        by_cases hin : c ∈ f.getD []
        · rw [if_pos hin] at h
          cases hmk : mkItem wc (MsgData.mk d.message (some c) d.timestamp (some true)) with
          | error e => rw [hmk] at h; simp [Except.map] at h
          | ok it =>
            rw [hmk] at h
            simp only [Except.map, Except.ok.injEq, Prod.mk.injEq] at h
            exact h.2.symm
        · rw [if_neg hin] at h
          simp only [Except.ok.injEq, Prod.mk.injEq] at h
          exact h.2.symm
    · rw [if_neg hf] at h
      cases hmk : mkItem wc { d with consumed := some true } with
      | error e => rw [hmk] at h; simp [Except.map] at h
      | ok it =>
        rw [hmk] at h
        simp only [Except.map, Except.ok.injEq, Prod.mk.injEq] at h
        exact h.2.symm

/-- Claim C7 counterexample: a record at key `"k"` already has
`consumed = true`, yet `flash_message` with the same request id leaves a
record at `"k"` with `consumed = false` — the overwrite installs a fresh
unconsumed record, so the claim as stated fails. -/
theorem C7_counterexample :
    lookup "k"
        (flash_message true "g" 0 "new" "message" (some "k")
          [("k", ⟨some "old", some "message", some 0, some true⟩)]).2 =
      some ⟨some "new", some "message", some 0, some false⟩ := by
  decide

/-- Claim C7 amended: for the non-inserting operations
(`get_flash_messages`, `get_all_flash_messages`, `clear_flash_messages`),
a key whose records are all consumed never ends up with an unconsumed
record; only `flash_message` can place a fresh `consumed = false` record at
an existing key, by replacing the record wholesale. -/
theorem C7_amended_consumed_stays (k : String) (sess : Messages)
    (hall : ∀ d, (k, d) ∈ sess → d.consumed.getD false = true) :
    (∀ rid wc f r s2, get_flash_messages true rid wc f sess = .ok (r, s2) →
       ∀ d', (k, d') ∈ s2 → d'.consumed.getD false = true) ∧
    (∀ now wc f r s2,
       get_all_flash_messages true now wc f sess = .ok (r, s2) →
       ∀ d', (k, d') ∈ s2 → d'.consumed.getD false = true) ∧
    (∀ rid d', (k, d') ∈ clear_flash_messages true rid sess →
       d'.consumed.getD false = true) := by
  refine ⟨?_, ?_, ?_⟩
  · intro rid wc f r s2 h d' hmem
    rcases get_ok_state rid wc f sess r s2 h with hs | ⟨d, _, hs⟩
    · exact hall d' (hs ▸ hmem)
    · rw [hs] at hmem
      rcases mem_insertMsg rid { d with consumed := some true } sess _ hmem
        with hm | hm
      · exact hall d' hm
      · rw [show d' = { d with consumed := some true } from
          congrArg Prod.snd hm]
        rfl
  · intro now wc f r s2 h d' hmem
    have heq : get_all_flash_messages true now wc f sess =
        getAllAux wc f (cleanup_old_messages now sess) := rfl
    rw [heq] at h
    obtain ⟨hstate, _⟩ := getAllAux_ok_spec wc f _ r s2 h
    rw [hstate] at hmem
    obtain ⟨p, hp, hmap⟩ := List.mem_map.1 hmem
    obtain ⟨k0, d0⟩ := p
    have hk0 : k0 = k := by
      have := congrArg Prod.fst hmap
      rwa [sweepMark_fst] at this
    subst hk0
    have hd0 : d0.consumed.getD false = true :=
      hall d0 ((mem_cleanup now sess (k0, d0)).1 hp).1
    by_cases he : emits f d0 = true
    · have : d' = setTrue d0 := by
        have := congrArg Prod.snd hmap
        simpa [sweepMark, he] using this.symm
      rw [this]
      rfl
    · have : d' = d0 := by
        have := congrArg Prod.snd hmap
        simpa [sweepMark, he] using this.symm
      rw [this]
      exact hd0
  · intro rid d' hmem
    cases rid with
    | none => simp [clear_flash_messages] at hmem
    | some rid =>
      simp only [clear_flash_messages, Bool.not_true, Bool.false_eq_true,
        if_false] at hmem
      by_cases hs : (lookup rid sess).isSome
      · rw [if_pos hs] at hmem
        exact hall d' (mem_eraseKey rid sess _ hmem)
      · rw [if_neg hs] at hmem
        exact hall d' hmem

theorem C7_amended_consumed_stays_witness :
    (∀ d, ("k", d) ∈ [("k", (⟨some "m", some "c", some 5,
        some true⟩ : MsgData))] → d.consumed.getD false = true) ∧
    (⟨some "m", some "c", some 5, some true⟩ : MsgData).consumed.getD false =
      true :=
  ⟨by
    intro d hd
    simp only [List.mem_singleton, Prod.mk.injEq] at hd
    rw [hd.2]
    rfl,
    (C7_amended_consumed_stays "k"
        [("k", ⟨some "m", some "c", some 5, some true⟩)]
        (by
          intro d hd
          simp only [List.mem_singleton, Prod.mk.injEq] at hd
          rw [hd.2]
          rfl)).1
      "k" false none [FlashItem.plain "m"]
      [("k", ⟨some "m", some "c", some 5, some true⟩)] rfl
      ⟨some "m", some "c", some 5, some true⟩ (by decide)⟩

/-- Claim C9 counterexample: a stored record missing its `category` field
makes `get_flash_messages` raise `KeyError` as soon as a non-empty category
filter forces the `msg_data["category"]` access, so "no operation raises on
any malformed record" fails. -/
theorem C9_counterexample :
    get_flash_messages true "k" false (some ["x"])
        [("k", ⟨some "m", none, some 0, some false⟩)] =
      .error "KeyError: category" := rfl

/-- Claim C9 amended: malformed records missing `timestamp` or `consumed`
are tolerated without raising — a missing `timestamp` is treated as `0`
(age `now`) by both the lazy sweep and the eviction minimum, and a missing
`consumed` as unconsumed — but `get_flash_messages` and
`get_all_flash_messages` do raise `KeyError` on records whose `category`
or `message` dict key is missing when the filter or the delivery accesses
it (`flash_message`, `clear_flash_messages` and `has_flash_messages` are
total, by construction). -/
theorem C9_amended_malformed_tolerated (now : Nat) (rid : String) (wc : Bool)
    (f : Option (List String)) (sess : Messages)
    (hwf : ∀ p ∈ sess, hasTextFields p.2 = true) :
    excOk (get_flash_messages true rid wc f sess) = true ∧
    excOk (get_all_flash_messages true now wc f sess) = true ∧
    (∀ k d, (k, d) ∈ sess → d.timestamp = none →
      ((k, d) ∈ cleanup_old_messages now sess ↔ now < MAX_MESSAGE_AGE)) ∧
    (∀ k d, lookup k sess = some d → d.consumed = none →
      has_flash_messages true (some k) sess = true) ∧
    (∀ h t, oldestEntry h t ∈ h :: t ∧
      ∀ q ∈ h :: t,
        (oldestEntry h t).2.timestamp.getD 0 ≤ q.2.timestamp.getD 0) := by
  refine ⟨?_, ?_, ?_, ?_, fun h t => ⟨oldestEntry_mem h t, oldestEntry_min h t⟩⟩
  · cases hl : lookup rid sess with
    | none => simp [get_flash_messages, hl, excOk]
    | some d =>
      have hd := hwf (rid, d) (mem_of_lookup rid d sess hl)
      simp only [hasTextFields, Bool.and_eq_true,
        Option.isSome_iff_exists] at hd
      obtain ⟨⟨m0, hm⟩, ⟨c, hc⟩⟩ := hd
      by_cases hf : filterActive f = true
      · by_cases hin : c ∈ f.getD []
        · cases wc <;>
            simp [get_flash_messages, hl, hf, hc, hin, hm, mkItem,
              Except.map, excOk]
        · cases wc <;> simp [get_flash_messages, hl, hf, hc, hin, excOk]
      · cases wc <;>
          simp [get_flash_messages, hl, hf, hc, hm, mkItem, Except.map, excOk]
  · have heq : get_all_flash_messages true now wc f sess =
        getAllAux wc f (cleanup_old_messages now sess) := rfl
    rw [heq]
    exact getAllAux_isOk wc f _
      (fun p hp => hwf p ((mem_cleanup now sess p).1 hp).1)
  · intro k d hm ht
    rw [mem_cleanup]
    simp [hm, fresh, ht, MAX_MESSAGE_AGE]
  · intro k d hl hcon
    simp [has_flash_messages, hl, hcon]

theorem C9_amended_malformed_tolerated_witness :
    (∀ p ∈ [("a", (⟨some "m", some "c", none, none⟩ : MsgData))],
      hasTextFields p.2 = true) ∧
    excOk (get_flash_messages true "a" true (some ["c"])
      [("a", ⟨some "m", some "c", none, none⟩)]) = true ∧
    excOk (get_all_flash_messages true 0 true (some ["c"])
      [("a", ⟨some "m", some "c", none, none⟩)]) = true :=
  ⟨by decide,
    (C9_amended_malformed_tolerated 0 "a" true (some ["c"])
      [("a", ⟨some "m", some "c", none, none⟩)] (by decide)).1,
    (C9_amended_malformed_tolerated 0 "a" true (some ["c"])
      [("a", ⟨some "m", some "c", none, none⟩)] (by decide)).2.1⟩

theorem mem_evictStep (m : Messages) (p : String × MsgData)
    (hp : p ∈ (if MAX_MESSAGES_PER_SESSION ≤ m.length then
        match m with
        | [] => m
        | h :: t => eraseKey (oldestEntry h t).1 m
      else m)) : p ∈ m := by
  split at hp
  · cases m with
    | nil => exact hp
    | cons h t => exact mem_eraseKey _ _ _ hp
  · exact hp

/-- Claim C5: once a record's age reaches `MAX_MESSAGE_AGE`, the lazy sweep
(performed by `flash_message` and `get_all_flash_messages`) drops it from
the persisted mapping — the sweep drops exactly the records with
`now - timestamp ≥ MAX_MESSAGE_AGE` and keeps all younger ones — so
afterward the key is gone, `get_all_flash_messages` cannot return it and
`has_flash_messages` on its id is false (for `flash_message`, provided the
freshly inserted id is a different key, since inserting reuses the key for
a brand-new record). -/
theorem C5_expiry_sweep (now : Nat) (k : String) (d : MsgData)
    (sess : Messages) (genId msg cat : String) (ridO : Option String)
    (hnd : (sess.map Prod.fst).Nodup)
    (hl : lookup k sess = some d)
    (hexp : MAX_MESSAGE_AGE ≤ now - d.timestamp.getD 0) :
    (∀ k2 d2, (k2, d2) ∈ sess →
      ((k2, d2) ∈ cleanup_old_messages now sess ↔ fresh now d2 = true)) ∧
    k ∉ (cleanup_old_messages now sess).map Prod.fst ∧
    (k, d) ∉ (flash_message true genId now msg cat ridO sess).2 ∧
    (ridO.getD genId ≠ k →
      has_flash_messages true (some k)
        (flash_message true genId now msg cat ridO sess).2 = false) ∧
    (∀ wc f r s2, get_all_flash_messages true now wc f sess = .ok (r, s2) →
      k ∉ s2.map Prod.fst ∧
      has_flash_messages true (some k) s2 = false) := by
  have hfr : fresh now d = false := by
    simp only [fresh, decide_eq_false_iff_not, not_lt]
    exact hexp
  have hknot : ∀ p ∈ cleanup_old_messages now sess, p.1 ≠ k := by
    intro p hp hpk
    have hm := (mem_cleanup now sess p).1 hp
    have hpm : (k, p.2) ∈ sess := by
      rw [← hpk]
      simpa using hm.1
    have hpd : p.2 = d :=
      lookup_unique_of_nodup k p.2 d sess hnd hpm (mem_of_lookup k d sess hl)
    rw [hpd] at hm
    simp [hfr] at hm
  have hkeys : k ∉ (cleanup_old_messages now sess).map Prod.fst := by
    intro hk
    obtain ⟨p, hp, he⟩ := List.mem_map.1 hk
    exact hknot p hp he
  have hlookupclean : lookup k (cleanup_old_messages now sess) = none :=
    lookup_eq_none_of_not_mem k _ hkeys
  refine ⟨?_, hkeys, ?_, ?_, ?_⟩
  · intro k2 d2 hm
    rw [mem_cleanup]
    simp [hm]
  · intro hmem
    rw [flash_message_true_eq] at hmem
    rcases mem_insertMsg _ _ _ _ hmem with hm | hm
    · have hmc := mem_evictStep _ _ hm
      exact hknot _ hmc rfl
    · have hd := congrArg Prod.snd hm
      simp only at hd
      rw [hd] at hexp
      simp [MAX_MESSAGE_AGE] at hexp
  · intro hne
    rw [flash_message_true_eq]
    have hlk : lookup k
        (insertMsg (ridO.getD genId)
          ⟨some msg, some cat, some now, some false⟩
          (if MAX_MESSAGES_PER_SESSION ≤
              (cleanup_old_messages now sess).length then
            match cleanup_old_messages now sess with
            | [] => cleanup_old_messages now sess
            | h :: t =>
              eraseKey (oldestEntry h t).1 (cleanup_old_messages now sess)
          else cleanup_old_messages now sess)) = none := by
      rw [lookup_insertMsg_ne k _ _ _ (Ne.symm hne)]
      apply lookup_eq_none_of_not_mem
      intro hk
      obtain ⟨p, hp, he⟩ := List.mem_map.1 hk
      exact hknot p (mem_evictStep _ _ hp) he
    simp [has_flash_messages, hlk]
  · intro wc f r s2 h
    have heq : get_all_flash_messages true now wc f sess =
        getAllAux wc f (cleanup_old_messages now sess) := rfl
    rw [heq] at h
    obtain ⟨hstate, _⟩ := getAllAux_ok_spec wc f _ r s2 h
    have hkeys2 : k ∉ s2.map Prod.fst := by
      rw [hstate, keys_map_sweepMark]
      exact hkeys
    refine ⟨hkeys2, ?_⟩
    have : lookup k s2 = none := lookup_eq_none_of_not_mem k s2 hkeys2
    simp [has_flash_messages, this]

theorem C5_expiry_sweep_witness :
    MAX_MESSAGE_AGE ≤ 1400 -
      ((⟨some "Old message", some "positive", some 1000,
        some false⟩ : MsgData)).timestamp.getD 0 ∧
    "old" ∉ (cleanup_old_messages 1400
      [("old", ⟨some "Old message", some "positive", some 1000,
        some false⟩)]).map Prod.fst ∧
    ("old", (⟨some "Old message", some "positive", some 1000,
        some false⟩ : MsgData)) ∉
      (flash_message true "g" 1400 "New message" "positive" (some "new")
        [("old", ⟨some "Old message", some "positive", some 1000,
          some false⟩)]).2 ∧
    has_flash_messages true (some "old")
      (flash_message true "g" 1400 "New message" "positive" (some "new")
        [("old", ⟨some "Old message", some "positive", some 1000,
          some false⟩)]).2 = false ∧
    ("old" ∉ ([] : Messages).map Prod.fst ∧
      has_flash_messages true (some "old") ([] : Messages) = false) :=
  have H := C5_expiry_sweep 1400 "old"
    ⟨some "Old message", some "positive", some 1000, some false⟩
    [("old", ⟨some "Old message", some "positive", some 1000, some false⟩)]
    "g" "New message" "positive" (some "new")
    (by decide) rfl (by decide)
  ⟨by decide, H.2.1, H.2.2.1, H.2.2.2.1 (by decide),
    H.2.2.2.2 false none [] [] rfl⟩

/-- Claim C4: two successive `get_all_flash_messages` calls (no intervening
`flash_message`) never deliver the same record twice — every record emitted
by the first call is consumed and therefore not emitted by the second — and
a record excluded by the first call's category filter is left completely
unchanged (not consumed), so a later call whose filter includes (or does
not exclude) its category still returns its message. -/
theorem C4_no_double_delivery (now1 now2 : Nat) (wc1 wc2 : Bool)
    (f1 f2 : Option (List String)) (sess : Messages)
    (r1 r2 : List FlashItem) (s1 s2 : Messages)
    (hnd : (sess.map Prod.fst).Nodup)
    (h1 : get_all_flash_messages true now1 wc1 f1 sess = .ok (r1, s1))
    (h2 : get_all_flash_messages true now2 wc2 f2 s1 = .ok (r2, s2)) :
    (∀ k d, (k, d) ∈ cleanup_old_messages now1 sess → emits f1 d = true →
      ∀ d2, (k, d2) ∈ cleanup_old_messages now2 s1 → emits f2 d2 = false) ∧
    (∀ k d c, lookup k sess = some d → d.consumed.getD false = false →
      fresh now1 d = true → d.category = some c → filterActive f1 = true →
      c ∉ f1.getD [] →
      lookup k s1 = some d ∧
      (∀ m, d.message = some m → fresh now2 d = true →
        (filterActive f2 = false ∨ c ∈ f2.getD []) →
        (if wc2 then FlashItem.tagged c m else FlashItem.plain m) ∈ r2)) := by
  have heq1 : get_all_flash_messages true now1 wc1 f1 sess =
      getAllAux wc1 f1 (cleanup_old_messages now1 sess) := rfl
  have heq2 : get_all_flash_messages true now2 wc2 f2 s1 =
      getAllAux wc2 f2 (cleanup_old_messages now2 s1) := rfl
  rw [heq1] at h1
  rw [heq2] at h2
  obtain ⟨hs1, _⟩ := getAllAux_ok_spec wc1 f1 _ r1 s1 h1
  obtain ⟨_, hr2⟩ := getAllAux_ok_spec wc2 f2 _ r2 s2 h2
  have hndc : ((cleanup_old_messages now1 sess).map Prod.fst).Nodup :=
    ((List.filter_sublist sess).map Prod.fst).nodup hnd
  refine ⟨?_, ?_⟩
  · intro k d hm hem d2 hm2
    have hm2s : (k, d2) ∈ s1 := ((mem_cleanup now2 s1 (k, d2)).1 hm2).1
    rw [hs1] at hm2s
    obtain ⟨p, hp, hmap⟩ := List.mem_map.1 hm2s
    have hpk : p.1 = k := by
      have := congrArg Prod.fst hmap
      rwa [sweepMark_fst] at this
    have hpm : (k, p.2) ∈ cleanup_old_messages now1 sess := by
      rw [← hpk]
      simpa using hp
    have hpd : p.2 = d :=
      lookup_unique_of_nodup k p.2 d (cleanup_old_messages now1 sess) hndc
        hpm hm
    have hd2 : d2 = setTrue d := by
      have := congrArg Prod.snd hmap
      rw [sweepMark] at this
      rw [hpd] at this
      simp only [hem, if_true] at this
      simpa using this.symm
    rw [hd2]
    simp [emits, setTrue]
  · intro k d c hlk hcon hfr1 hc hfa hnotin
    have hem1 : emits f1 d = false := by
      simp [emits, hcon, hfa, hc, hnotin]
    have hlc : lookup k (cleanup_old_messages now1 sess) = some d :=
      lookup_cleanup_of_fresh now1 k d sess hlk hfr1
    have hls1 : lookup k s1 = some d := by
      rw [hs1, lookup_map_sweepMark, hlc]
      simp [hem1]
    refine ⟨hls1, ?_⟩
    intro m hm hfr2 hf2
    have hmem2 : (k, d) ∈ cleanup_old_messages now2 s1 :=
      (mem_cleanup now2 s1 (k, d)).2 ⟨mem_of_lookup k d s1 hls1, hfr2⟩
    have hem2 : emits f2 d = true := by
      rcases hf2 with hf2 | hf2
      · simp [emits, hcon, hf2]
      · by_cases hfa2 : filterActive f2 = true
        · simp [emits, hcon, hfa2, hc, hf2]
        · simp only [Bool.not_eq_true] at hfa2
          simp [emits, hcon, hfa2]
    rw [hr2]
    refine List.mem_filterMap.2 ⟨(k, d), List.mem_filter.2 ⟨hmem2, ?_⟩, ?_⟩
    · simpa using hem2
    · cases wc2 <;> simp [mkItem, hc, hm, Except.toOption]

theorem C4_no_double_delivery_witness :
    emits (some ["neg"])
        (setTrue ⟨some "A", some "pos", some 0, some false⟩) = false ∧
    (lookup "b"
        [("a", (⟨some "A", some "pos", some 0, some true⟩ : MsgData)),
         ("b", ⟨some "B", some "neg", some 0, some false⟩)] =
      some ⟨some "B", some "neg", some 0, some false⟩ ∧
     FlashItem.plain "B" ∈ [FlashItem.plain "B"]) :=
  have H := C4_no_double_delivery 0 0 false false (some ["pos"])
    (some ["neg"])
    [("a", ⟨some "A", some "pos", some 0, some false⟩),
     ("b", ⟨some "B", some "neg", some 0, some false⟩)]
    [FlashItem.plain "A"] [FlashItem.plain "B"]
    [("a", ⟨some "A", some "pos", some 0, some true⟩),
     ("b", ⟨some "B", some "neg", some 0, some false⟩)]
    [("a", ⟨some "A", some "pos", some 0, some true⟩),
     ("b", ⟨some "B", some "neg", some 0, some true⟩)]
    (by decide) rfl rfl
  have Hb := H.2 "b" ⟨some "B", some "neg", some 0, some false⟩ "neg"
    rfl rfl rfl rfl rfl (by decide)
  ⟨H.1 "a" ⟨some "A", some "pos", some 0, some false⟩ (by decide) rfl
      (setTrue ⟨some "A", some "pos", some 0, some false⟩) (by decide),
    Hb.1, Hb.2 "B" rfl rfl (Or.inr (by decide))⟩

theorem flash_message_true_snd (g : String) (now : Nat) (msg cat : String)
    (ridO : Option String) (sess : Messages) :
    (flash_message true g now msg cat ridO sess).2 =
      insertMsg (ridO.getD g) ⟨some msg, some cat, some now, some false⟩
        (if MAX_MESSAGES_PER_SESSION ≤ (cleanup_old_messages now sess).length
         then
          match cleanup_old_messages now sess with
          | [] => cleanup_old_messages now sess
          | h :: t =>
            eraseKey (oldestEntry h t).1 (cleanup_old_messages now sess)
         else cleanup_old_messages now sess) := rfl

theorem flash_snd_of_small (g : String) (now : Nat) (msg cat : String)
    (ridO : Option String) (sess : Messages)
    (hlen : (cleanup_old_messages now sess).length <
      MAX_MESSAGES_PER_SESSION) :
    (flash_message true g now msg cat ridO sess).2 =
      insertMsg (ridO.getD g) ⟨some msg, some cat, some now, some false⟩
        (cleanup_old_messages now sess) := by
  rw [flash_message_true_snd, if_neg (Nat.not_le.2 hlen)]

theorem flash_snd_of_full_cons (g : String) (now : Nat) (msg cat : String)
    (ridO : Option String) (sess : Messages) (q : String × MsgData)
    (qs : Messages)
    (hcl : cleanup_old_messages now sess = q :: qs)
    (hlen : MAX_MESSAGES_PER_SESSION ≤ (q :: qs).length) :
    (flash_message true g now msg cat ridO sess).2 =
      insertMsg (ridO.getD g) ⟨some msg, some cat, some now, some false⟩
        (eraseKey (oldestEntry q qs).1 (q :: qs)) := by
  rw [flash_message_true_snd, hcl, if_pos hlen]

theorem keys_map_recOf (m c : String) (ps : List (String × Nat)) :
    (ps.map (recOf m c)).map Prod.fst = ps.map Prod.fst := by
  induction ps with
  | nil => rfl
  | cons p t ih => simp [recOf, ih]

theorem flashSeq_append (g m c : String) (ps : List (String × Nat))
    (p : String × Nat) (sess : Messages) :
    flashSeq g m c (ps ++ [p]) sess =
      (flash_message true g p.2 m c (some p.1)
        (flashSeq g m c ps sess)).2 := by
  simp [flashSeq, List.foldl_append]

theorem flashSeq_no_evict (g m c : String) (ps : List (String × Nat)) :
    ps.length ≤ MAX_MESSAGES_PER_SESSION →
    (ps.map Prod.fst).Nodup →
    (∀ p ∈ ps, ∀ q ∈ ps, p.2 - q.2 < MAX_MESSAGE_AGE) →
    flashSeq g m c ps [] = ps.map (recOf m c) := by
  induction ps using List.reverseRecOn with
  | nil =>
    intro _ _ _
    rfl
  | append_singleton ps p ih =>
    intro hlen hnd hage
    have hlen' : ps.length ≤ MAX_MESSAGES_PER_SESSION := by
      rw [List.length_append] at hlen
      omega
    have hnd' : (ps.map Prod.fst).Nodup := by
      rw [List.map_append] at hnd
      exact (List.nodup_append.1 hnd).1
    have hage' : ∀ a ∈ ps, ∀ b ∈ ps, a.2 - b.2 < MAX_MESSAGE_AGE :=
      fun a ha b hb =>
        hage a (List.mem_append_left _ ha) b (List.mem_append_left _ hb)
    rw [flashSeq_append, ih hlen' hnd' hage']
    have hclean : cleanup_old_messages p.2 (ps.map (recOf m c)) =
        ps.map (recOf m c) := by
      rw [cleanup_old_messages, List.filter_eq_self]
      intro q hq
      obtain ⟨r, hr, hrq⟩ := List.mem_map.1 hq
      have hpr := hage p (List.mem_append_right _ (by simp)) r
        (List.mem_append_left _ hr)
      rw [← hrq]
      simp [recOf, fresh, hpr]
    have hsm : (cleanup_old_messages p.2 (ps.map (recOf m c))).length <
        MAX_MESSAGES_PER_SESSION := by
      rw [hclean, List.length_map]
      rw [List.length_append] at hlen
      simp only [List.length_singleton] at hlen
      omega
    have hp1 : p.1 ∉ (ps.map (recOf m c)).map Prod.fst := by
      rw [keys_map_recOf]
      rw [List.map_append] at hnd
      have hdisj := (List.nodup_append.1 hnd).2.2
      intro hmem
      exact hdisj hmem (by simp)
    rw [flash_snd_of_small g p.2 m c (some p.1) _ hsm, hclean,
      insertMsg_of_not_mem _ _ _ (by simpa using hp1), List.map_append]
    rfl

/-- Claim C2: a mapping of at most `MAX_MESSAGES_PER_SESSION` records still
has at most that many immediately after any `flash_message` insertion; and
flashing `MAX_MESSAGES_PER_SESSION + 1` messages into an empty session with
distinct request ids, strictly increasing timestamps and a total age span
below `MAX_MESSAGE_AGE` leaves exactly the `MAX_MESSAGES_PER_SESSION` most
recent records, the record with the smallest (first) timestamp having been
evicted. -/
theorem C2_capacity_eviction (genId : String) (now : Nat) (msg cat : String)
    (ridO : Option String) (sess : Messages) (g m c : String)
    (pairs : List (String × Nat))
    (hsess : sess.length ≤ MAX_MESSAGES_PER_SESSION)
    (hp : pairs.length = MAX_MESSAGES_PER_SESSION + 1)
    (hnd : (pairs.map Prod.fst).Nodup)
    (hinc : List.Chain' (· < ·) (pairs.map Prod.snd))
    (hage : ∀ p ∈ pairs, ∀ q ∈ pairs, p.2 - q.2 < MAX_MESSAGE_AGE) :
    (flash_message true genId now msg cat ridO sess).2.length ≤
      MAX_MESSAGES_PER_SESSION ∧
    flashSeq g m c pairs [] = (pairs.drop 1).map (recOf m c) ∧
    (flashSeq g m c pairs []).length = MAX_MESSAGES_PER_SESSION := by
  have hcap : (flash_message true genId now msg cat ridO sess).2.length ≤
      MAX_MESSAGES_PER_SESSION := by
    have hcl : (cleanup_old_messages now sess).length ≤ sess.length :=
      length_cleanup_le now sess
    by_cases hfull : MAX_MESSAGES_PER_SESSION ≤
        (cleanup_old_messages now sess).length
    · cases hshape : cleanup_old_messages now sess with
      | nil =>
        rw [hshape] at hfull
        simp [MAX_MESSAGES_PER_SESSION] at hfull
      | cons q qs =>
        rw [hshape] at hfull
        rw [flash_snd_of_full_cons genId now msg cat ridO sess q qs hshape
          hfull]
        have h1 := length_insertMsg_le (ridO.getD genId)
          ⟨some msg, some cat, some now, some false⟩
          (eraseKey (oldestEntry q qs).1 (q :: qs))
        have h2 := length_eraseKey_add_one (oldestEntry q qs).1 (q :: qs)
          (List.mem_map_of_mem Prod.fst (oldestEntry_mem q qs))
        rw [hshape] at hcl
        omega
    · rw [flash_snd_of_small genId now msg cat ridO sess
        (Nat.lt_of_not_le hfull)]
      have h1 := length_insertMsg_le (ridO.getD genId)
        ⟨some msg, some cat, some now, some false⟩
        (cleanup_old_messages now sess)
      have := Nat.lt_of_not_le hfull
      omega
  refine ⟨hcap, ?_⟩
  induction pairs using List.reverseRecOn with
  | nil => simp [MAX_MESSAGES_PER_SESSION] at hp
  | append_singleton ps p ih =>
    clear ih
    have hps : ps.length = MAX_MESSAGES_PER_SESSION := by
      rw [List.length_append] at hp
      simpa using hp
    cases ps with
    | nil => simp [MAX_MESSAGES_PER_SESSION] at hps
    | cons q qs =>
      have hlen' : (q :: qs).length ≤ MAX_MESSAGES_PER_SESSION :=
        le_of_eq hps
      have hnd' : ((q :: qs).map Prod.fst).Nodup := by
        rw [List.map_append] at hnd
        exact (List.nodup_append.1 hnd).1
      have hage' : ∀ a ∈ q :: qs, ∀ b ∈ q :: qs,
          a.2 - b.2 < MAX_MESSAGE_AGE :=
        fun a ha b hb =>
          hage a (List.mem_append_left _ ha) b (List.mem_append_left _ hb)
      have hseq := flashSeq_no_evict g m c (q :: qs) hlen' hnd' hage'
      rw [flashSeq_append, hseq]
      have hclean : cleanup_old_messages p.2 ((q :: qs).map (recOf m c)) =
          (q :: qs).map (recOf m c) := by
        rw [cleanup_old_messages, List.filter_eq_self]
        intro x hx
        obtain ⟨r, hr, hrx⟩ := List.mem_map.1 hx
        have hpr := hage p (List.mem_append_right _ (by simp)) r
          (List.mem_append_left _ hr)
        rw [← hrx]
        simp [recOf, fresh, hpr]
      have hfull : MAX_MESSAGES_PER_SESSION ≤
          (recOf m c q :: qs.map (recOf m c)).length := by
        have : (recOf m c q :: qs.map (recOf m c)).length =
            (q :: qs).length := by simp
        rw [this, hps]
      have hpw : List.Pairwise (· < ·) (((q :: qs) ++ [p]).map Prod.snd) :=
        List.chain'_iff_pairwise.1 hinc
      have h0 := hpw
      simp only [List.cons_append, List.map_cons, List.map_append,
        List.map_singleton] at h0
      have hhead := (List.pairwise_cons.1 h0).1
      have hmin : ∀ r ∈ qs.map (recOf m c),
          ¬(r.2.timestamp.getD 0 < (recOf m c q).2.timestamp.getD 0) := by
        intro r hr
        obtain ⟨s, hs, hsr⟩ := List.mem_map.1 hr
        have hqs : q.2 < s.2 :=
          hhead s.2 (List.mem_append_left _ (List.mem_map_of_mem Prod.snd hs))
        rw [← hsr]
        simp only [recOf, Option.getD_some]
        omega
      have hp1 : p.1 ∉ ((q :: qs).map (recOf m c)).map Prod.fst := by
        rw [keys_map_recOf]
        rw [List.map_append] at hnd
        have hdisj := (List.nodup_append.1 hnd).2.2
        intro hmem
        exact hdisj hmem (by simp)
      rw [show (q :: qs).map (recOf m c) =
          recOf m c q :: qs.map (recOf m c) from rfl] at hclean ⊢
      rw [flash_snd_of_full_cons g p.2 m c (some p.1) _ (recOf m c q)
        (qs.map (recOf m c)) hclean hfull]
      rw [oldestEntry_eq_head (recOf m c q) (qs.map (recOf m c)) hmin]
      rw [eraseKey_cons_self]
      have hp1' : p.1 ∉ (qs.map (recOf m c)).map Prod.fst := by
        intro hmem
        exact hp1 (by
          rw [show ((q :: qs).map (recOf m c)).map Prod.fst =
            (recOf m c q).1 :: (qs.map (recOf m c)).map Prod.fst from rfl]
          exact List.mem_cons_of_mem _ hmem)
      have hfin : insertMsg ((some p.1).getD g)
          ⟨some m, some c, some p.2, some false⟩ (qs.map (recOf m c)) =
          (((q :: qs) ++ [p]).drop 1).map (recOf m c) := by
        rw [insertMsg_of_not_mem _ _ _ (by simpa using hp1')]
        simp [recOf]
      refine ⟨hfin, ?_⟩
      rw [hfin]
      have hlen2 : (((q :: qs) ++ [p]).drop 1).length =
          MAX_MESSAGES_PER_SESSION := by
        rw [List.length_drop, hp]
        omega
      rw [List.length_map]
      exact hlen2

theorem C2_capacity_eviction_witness :
    ([("a", 1000),
     ("b", 1001),
     ("c", 1002),
     ("d", 1003),
     ("e", 1004),
     ("f", 1005),
     ("g", 1006),
     ("h", 1007),
     ("i", 1008),
     ("j", 1009),
     ("k", 1010),
     ("l", 1011),
     ("m", 1012),
     ("n", 1013),
     ("o", 1014),
     ("p", 1015),
     ("q", 1016),
     ("r", 1017),
     ("s", 1018),
     ("t", 1019),
     ("u", 1020),
     ("v", 1021),
     ("w", 1022),
     ("x", 1023),
     ("y", 1024),
     ("z", 1025)] : List (String × Nat)).length =
      MAX_MESSAGES_PER_SESSION + 1 ∧
    ((flash_message true "g" 0 "m" "message" none []).2.length ≤
      MAX_MESSAGES_PER_SESSION ∧
     flashSeq "g" "m" "message"
        [("a", 1000),
     ("b", 1001),
     ("c", 1002),
     ("d", 1003),
     ("e", 1004),
     ("f", 1005),
     ("g", 1006),
     ("h", 1007),
     ("i", 1008),
     ("j", 1009),
     ("k", 1010),
     ("l", 1011),
     ("m", 1012),
     ("n", 1013),
     ("o", 1014),
     ("p", 1015),
     ("q", 1016),
     ("r", 1017),
     ("s", 1018),
     ("t", 1019),
     ("u", 1020),
     ("v", 1021),
     ("w", 1022),
     ("x", 1023),
     ("y", 1024),
     ("z", 1025)] [] =
      (([("a", 1000),
     ("b", 1001),
     ("c", 1002),
     ("d", 1003),
     ("e", 1004),
     ("f", 1005),
     ("g", 1006),
     ("h", 1007),
     ("i", 1008),
     ("j", 1009),
     ("k", 1010),
     ("l", 1011),
     ("m", 1012),
     ("n", 1013),
     ("o", 1014),
     ("p", 1015),
     ("q", 1016),
     ("r", 1017),
     ("s", 1018),
     ("t", 1019),
     ("u", 1020),
     ("v", 1021),
     ("w", 1022),
     ("x", 1023),
     ("y", 1024),
     ("z", 1025)] : List (String × Nat)).drop 1).map (recOf "m" "message") ∧
     (flashSeq "g" "m" "message"
        [("a", 1000),
     ("b", 1001),
     ("c", 1002),
     ("d", 1003),
     ("e", 1004),
     ("f", 1005),
     ("g", 1006),
     ("h", 1007),
     ("i", 1008),
     ("j", 1009),
     ("k", 1010),
     ("l", 1011),
     ("m", 1012),
     ("n", 1013),
     ("o", 1014),
     ("p", 1015),
     ("q", 1016),
     ("r", 1017),
     ("s", 1018),
     ("t", 1019),
     ("u", 1020),
     ("v", 1021),
     ("w", 1022),
     ("x", 1023),
     ("y", 1024),
     ("z", 1025)] []).length = MAX_MESSAGES_PER_SESSION) :=
  ⟨by decide,
    C2_capacity_eviction "g" 0 "m" "message" none [] "g" "m" "message"
      [("a", 1000),
     ("b", 1001),
     ("c", 1002),
     ("d", 1003),
     ("e", 1004),
     ("f", 1005),
     ("g", 1006),
     ("h", 1007),
     ("i", 1008),
     ("j", 1009),
     ("k", 1010),
     ("l", 1011),
     ("m", 1012),
     ("n", 1013),
     ("o", 1014),
     ("p", 1015),
     ("q", 1016),
     ("r", 1017),
     ("s", 1018),
     ("t", 1019),
     ("u", 1020),
     ("v", 1021),
     ("w", 1022),
     ("x", 1023),
     ("y", 1024),
     ("z", 1025)]
      (by decide) (by decide) (by decide)
      (by rw [List.chain'_iff_pairwise]; decide) (by decide)⟩
